import Mathlib

/- Shallow embedding of the event-driven MA-crossover strategy:
   `LiveMaStrategy` / `feed_loop` (engine.py) and `PerformanceTracker`
   (metrics.py).  Prices, timestamps and PnL amounts are modelled as
   rationals; Python exceptions are modelled with `Except`. -/

namespace Crossover

namespace Engine

/-- State of `LiveMaStrategy` (engine.py): the configured window sizes, the
price window (`collections.deque(maxlen = slow)`, most recent element last),
the current position (`0` = flat, `1` = long, `-1` = short), the entry price
of the open position, and the cumulative realized PnL. -/
structure StrategyState where
  fast : Nat
  slow : Nat
  prices : List ℚ
  position : Int
  entry_price : ℚ
  pnl : ℚ
deriving Repr, DecidableEq

/-- Appending to a `collections.deque` with `maxlen = slow`: the new element
goes last and the oldest elements are evicted so that at most `slow` remain. -/
def dequeAppend (slow : Nat) (xs : List ℚ) (x : ℚ) : List ℚ :=
  let ys := xs ++ [x]
  ys.drop (ys.length - slow)

/-- Arithmetic mean (`np.mean`) of a list of rationals. -/
def mean (xs : List ℚ) : ℚ := xs.sum / (xs.length : ℚ)

/-- Python slice `xs[-n:]`: the last `n` elements when `n ≥ 1`, the whole
list when `n = 0`. -/
def sliceLast (n : Nat) (xs : List ℚ) : List ℚ :=
  if n = 0 then xs else xs.drop (xs.length - n)

/-- The state dict returned by `on_price` once the window is full. -/
structure SignalResult where
  price : ℚ
  fast_ma : ℚ
  slow_ma : ℚ
  position : Int
  pnl : ℚ
deriving Repr, DecidableEq

/-- The `transaction_data` dict handed to `tracker.log_transaction` when a
transition fires. -/
structure TransactionData where
  price : ℚ
  is_entry : Bool
  position : Int
  pnl : ℚ
deriving Repr, DecidableEq

/-- The price window after `self.prices.append(price)`. -/
def windowAfter (s : StrategyState) (price : ℚ) : List ℚ :=
  dequeAppend s.slow s.prices price

/-- Value of `fast_ma = np.mean(list(self.prices)[-self.fast:])` for the call
`on_price price` in state `s`. -/
def fastMaOf (s : StrategyState) (price : ℚ) : ℚ :=
  mean (sliceLast s.fast (windowAfter s price))

/-- Value of `slow_ma = np.mean(self.prices)` for the call `on_price price`
in state `s`. -/
def slowMaOf (s : StrategyState) (price : ℚ) : ℚ :=
  mean (windowAfter s price)

/-- One call of `LiveMaStrategy.on_price` (engine.py, lines 23-82).  Returns
the updated strategy state, the optional returned state dict (`None` while
the window is not yet full), and the `transaction_data` passed to
`tracker.log_transaction` when a transition fired (`none` when no signal).
The four branches are the Python `if`/`elif` chain in source order; the
returned dict reads `self.position` / `self.pnl` after the mutation. -/
def on_price (s : StrategyState) (price : ℚ) :
    StrategyState × Option SignalResult × Option TransactionData :=
  let prices := dequeAppend s.slow s.prices price
  if prices.length < s.slow then
    ({ s with prices := prices }, none, none)
  else
    let fast_ma := mean (sliceLast s.fast prices)
    let slow_ma := mean prices
    if fast_ma > slow_ma ∧ s.position = 0 then
      let s2 := { s with prices := prices, position := 1, entry_price := price }
      (s2, some ⟨price, fast_ma, slow_ma, s2.position, s2.pnl⟩,
        some ⟨price, true, 1, s.pnl⟩)
    else if fast_ma < slow_ma ∧ s.position = 1 then
      let pnl2 := s.pnl + (price - s.entry_price)
      let s2 := { s with prices := prices, position := 0, pnl := pnl2 }
      (s2, some ⟨price, fast_ma, slow_ma, s2.position, s2.pnl⟩,
        some ⟨price, false, 0, pnl2⟩)
    else if fast_ma < slow_ma ∧ s.position = 0 then
      let s2 := { s with prices := prices, position := -1, entry_price := price }
      (s2, some ⟨price, fast_ma, slow_ma, s2.position, s2.pnl⟩,
        some ⟨price, true, -1, s.pnl⟩)
    else if fast_ma > slow_ma ∧ s.position = -1 then
      let pnl2 := s.pnl + (s.entry_price - price)
      let s2 := { s with prices := prices, position := 0, pnl := pnl2 }
      (s2, some ⟨price, fast_ma, slow_ma, s2.position, s2.pnl⟩,
        some ⟨price, false, 0, pnl2⟩)
    else
      let s2 := { s with prices := prices }
      (s2, some ⟨price, fast_ma, slow_ma, s2.position, s2.pnl⟩, none)

/-- The freshly constructed strategy of `LiveMaStrategy.__init__`. -/
def initState (fast slow : Nat) : StrategyState :=
  ⟨fast, slow, [], 0, 0, 0⟩

/-- Feed a list of prices through the strategy one at a time (in arrival
order), collecting the optional results. -/
def runPrices (s : StrategyState) : List ℚ → StrategyState × List (Option SignalResult)
  | [] => (s, [])
  | p :: ps =>
    let r := on_price s p
    let rest := runPrices r.1 ps
    (rest.1, r.2.1 :: rest.2)

theorem dequeAppend_of_le (slow : Nat) (xs : List ℚ) (x : ℚ)
    (h : xs.length + 1 ≤ slow) : dequeAppend slow xs x = xs ++ [x] := by
  have h0 : (xs ++ [x]).length - slow = 0 := by simp; omega
  simp only [dequeAppend, h0, List.drop_zero]

theorem length_dequeAppend (slow : Nat) (xs : List ℚ) (x : ℚ) :
    (dequeAppend slow xs x).length = min (xs.length + 1) slow := by
  unfold dequeAppend
  simp [List.length_drop]
  omega

theorem runPrices_warmup (s : StrategyState) (ps : List ℚ)
    (h : s.prices.length + ps.length < s.slow) :
    runPrices s ps =
      ({ s with prices := s.prices ++ ps }, List.replicate ps.length none) := by
  induction ps generalizing s with
  | nil => simp [runPrices]
  | cons p ps ih =>
    have hstep : on_price s p = ({ s with prices := s.prices ++ [p] }, none, none) := by
      unfold on_price
      have hd : dequeAppend s.slow s.prices p = s.prices ++ [p] := by
        apply dequeAppend_of_le
        simp at h
        omega
      rw [hd]
      have hlt : (s.prices ++ [p]).length < s.slow := by
        simp at h ⊢
        omega
      rw [if_pos hlt]
    have hrec := ih { s with prices := s.prices ++ [p] } (by simp at h ⊢; omega)
    simp only [runPrices, hstep, hrec]
    simp [List.replicate_succ]

/-- C1: once the window holds `slow` prices, `on_price` performs exactly the
spec's transition table.  From flat it opens long at `price` when the fast MA
exceeds the slow MA, opens short when it is below, and does nothing on
equality; from long it closes (adding `price - entry_price` to the realized
PnL) exactly when the fast MA is below the slow MA and otherwise holds; from
short it closes (adding `entry_price - price`) exactly when the fast MA is
above and otherwise holds; and the realized PnL changes only in the two
closing cases. -/
theorem C1_transition_table (s : StrategyState) (price : ℚ)
    (hfull : s.slow ≤ (windowAfter s price).length) :
    ((s.position = 0 → slowMaOf s price < fastMaOf s price →
        (on_price s price).1 =
          { s with prices := windowAfter s price, position := 1, entry_price := price }) ∧
     (s.position = 0 → fastMaOf s price < slowMaOf s price →
        (on_price s price).1 =
          { s with prices := windowAfter s price, position := -1, entry_price := price }) ∧
     (s.position = 0 → fastMaOf s price = slowMaOf s price →
        (on_price s price).1 = { s with prices := windowAfter s price })) ∧
    ((s.position = 1 → fastMaOf s price < slowMaOf s price →
        (on_price s price).1 =
          { s with prices := windowAfter s price, position := 0,
                   pnl := s.pnl + (price - s.entry_price) }) ∧
     (s.position = 1 → slowMaOf s price ≤ fastMaOf s price →
        (on_price s price).1 = { s with prices := windowAfter s price })) ∧
    ((s.position = -1 → slowMaOf s price < fastMaOf s price →
        (on_price s price).1 =
          { s with prices := windowAfter s price, position := 0,
                   pnl := s.pnl + (s.entry_price - price) }) ∧
     (s.position = -1 → fastMaOf s price ≤ slowMaOf s price →
        (on_price s price).1 = { s with prices := windowAfter s price })) ∧
    ((on_price s price).1.pnl ≠ s.pnl →
        (s.position = 1 ∧ fastMaOf s price < slowMaOf s price) ∨
        (s.position = -1 ∧ slowMaOf s price < fastMaOf s price)) := by
  have hng : ¬ (dequeAppend s.slow s.prices price).length < s.slow := by
    simp only [windowAfter] at hfull; omega
  simp only [fastMaOf, slowMaOf, windowAfter]
  refine ⟨⟨?_, ?_, ?_⟩, ⟨?_, ?_⟩, ⟨?_, ?_⟩, ?_⟩
  · intro hpos hc
    simp only [on_price]
    rw [if_neg hng, if_pos ⟨hc, hpos⟩]
  · intro hpos hc
    simp only [on_price]
    rw [if_neg hng, if_neg (fun h => absurd hc (not_lt_of_gt h.1)),
      if_neg (fun h => by rw [hpos] at h; exact absurd h.2 (by decide)),
      if_pos ⟨hc, hpos⟩]
  · intro hpos hc
    simp only [on_price]
    rw [if_neg hng, if_neg (fun h => absurd h.1 (by rw [hc]; exact lt_irrefl _)),
      if_neg (fun h => by rw [hpos] at h; exact absurd h.2 (by decide)),
      if_neg (fun h => absurd h.1 (by rw [hc]; exact lt_irrefl _)),
      if_neg (fun h => by rw [hpos] at h; exact absurd h.2 (by decide))]
  · intro hpos hc
    simp only [on_price]
    rw [if_neg hng, if_neg (fun h => by rw [hpos] at h; exact absurd h.2 (by decide)),
      if_pos ⟨hc, hpos⟩]
  · intro hpos hc
    simp only [on_price]
    rw [if_neg hng, if_neg (fun h => by rw [hpos] at h; exact absurd h.2 (by decide)),
      if_neg (fun h => absurd hc (not_le_of_lt h.1)),
      if_neg (fun h => by rw [hpos] at h; exact absurd h.2 (by decide)),
      if_neg (fun h => by rw [hpos] at h; exact absurd h.2 (by decide))]
  · intro hpos hc
    simp only [on_price]
    rw [if_neg hng, if_neg (fun h => by rw [hpos] at h; exact absurd h.2 (by decide)),
      if_neg (fun h => by rw [hpos] at h; exact absurd h.2 (by decide)),
      if_neg (fun h => by rw [hpos] at h; exact absurd h.2 (by decide)),
      if_pos ⟨hc, hpos⟩]
  · intro hpos hc
    simp only [on_price]
    rw [if_neg hng, if_neg (fun h => absurd hc (not_le_of_lt h.1)),
      if_neg (fun h => by rw [hpos] at h; exact absurd h.2 (by decide)),
      if_neg (fun h => by rw [hpos] at h; exact absurd h.2 (by decide)),
      if_neg (fun h => absurd hc (not_le_of_lt h.1))]
  · intro hne
    simp only [on_price] at hne
    rw [if_neg hng] at hne
    split_ifs at hne with h1 h2 h3 h4
    · simp at hne
    · exact Or.inl ⟨h2.2, h2.1⟩
    · simp at hne
    · exact Or.inr ⟨h4.2, h4.1⟩
    · simp at hne

/-- Witness for C1: from flat with window sizes 2/3, buffered prices
`[5, 5]` and incoming price 2, the engine opens a short at price 2. -/
theorem C1_transition_table_witness :
    (on_price ⟨2, 3, [5, 5], 0, 0, 0⟩ 2).1 =
      { fast := 2, slow := 3, prices := [5, 5, 2], position := -1,
        entry_price := 2, pnl := 0 } := by
  have h := (C1_transition_table ⟨2, 3, [5, 5], 0, 0, 0⟩ 2
      (by norm_num [windowAfter, dequeAppend])).1.2.1 rfl
      (by norm_num [fastMaOf, slowMaOf, windowAfter, dequeAppend, sliceLast, mean])
  simpa [windowAfter, dequeAppend] using h

/-- C8: while fewer than `slow` prices have been observed, `on_price` returns
nothing and the only state change is buffering the price (the position stays
flat); once the window is full, every call returns a `SignalResult`. -/
theorem C8_warmup_then_signals (fast slow : Nat) (ps : List ℚ)
    (h : ps.length < slow) :
    runPrices (initState fast slow) ps =
      (⟨fast, slow, ps, 0, 0, 0⟩, List.replicate ps.length none) ∧
    ∀ (s : StrategyState) (price : ℚ), s.slow ≤ s.prices.length + 1 →
      ((on_price s price).2.1).isSome = true := by
  constructor
  · have hw := runPrices_warmup (initState fast slow) ps (by simp [initState]; omega)
    simpa [initState] using hw
  · intro s price hs
    have hng : ¬ (dequeAppend s.slow s.prices price).length < s.slow := by
      rw [length_dequeAppend]; omega
    simp only [on_price]
    rw [if_neg hng]
    split_ifs <;> rfl

/-- Witness for C8: with window sizes 2/3, two prices produce no signal and
only buffering, and from a state holding two prices the next call signals. -/
theorem C8_warmup_then_signals_witness :
    runPrices (initState 2 3) [5, 5] = (⟨2, 3, [5, 5], 0, 0, 0⟩, [none, none]) ∧
    ((on_price ⟨2, 3, [5, 5], 0, 0, 0⟩ 2).2.1).isSome = true := by
  have h := C8_warmup_then_signals 2 3 [5, 5] (by norm_num)
  exact ⟨by simpa using h.1, h.2 ⟨2, 3, [5, 5], 0, 0, 0⟩ 2 (by norm_num)⟩

end Engine

namespace Feed

/-- One iteration of the `while True` body of `feed_loop` (engine.py,
lines 88-108), abstracted over whether the fetch raised, covering both
shapes of the body.  Without a tracker (`tracker = false`) a raised fetch
propagates from the `await` itself before `retry = 0` runs, so the
`except` sleeps `delay * 2 ^ min retry max_retries` and then increments
the pre-iteration `retry`.  With a tracker (`tracker = true`, the
configuration `run_live` builds for both entry points) `measure_latency`
swallows the fetch failure and returns `(None, latency)`, so `retry = 0`
executes and the failure only surfaces as the `TypeError` raised by
`ticker['last']`; the `except` therefore sleeps
`delay * 2 ^ min 0 max_retries` and leaves the counter at `0 + 1`.  On a
successful fetch both shapes reset `retry` to 0 and sleep `delay`.  The
first component is the sleep duration of the iteration, the second the
retry counter after it. -/
def feedStep (tracker : Bool) (delay : ℚ) (max_retries : Nat) (retry : Nat)
    (success : Bool) : ℚ × Nat :=
  if success then (delay, 0)
  else if tracker then (delay * 2 ^ min 0 max_retries, 0 + 1)
  else (delay * 2 ^ min retry max_retries, retry + 1)

/-- Run `feed_loop` over a finite trace of fetch outcomes (`true` = the
fetch succeeded), collecting each iteration's sleep duration and the final
retry counter.  Every outcome produces a next iteration: in either shape
no fetch failure terminates or escapes the loop. -/
def feedRun (tracker : Bool) (delay : ℚ) (max_retries : Nat) (retry : Nat) :
    List Bool → List ℚ × Nat
  | [] => ([], retry)
  | b :: bs =>
    let r := feedStep tracker delay max_retries retry b
    let rest := feedRun tracker delay max_retries r.2 bs
    (r.1 :: rest.1, rest.2)

/-- Number of consecutive fetch failures since the most recent success of a
trace (the whole trace length when it contains no success). -/
def failuresSinceSuccess : List Bool → Nat
  | [] => 0
  | true :: bs => failuresSinceSuccess bs
  | false :: bs =>
    if true ∈ bs then failuresSinceSuccess bs else bs.length + 1

theorem failuresSinceSuccess_of_no_true (l : List Bool) (h : true ∉ l) :
    failuresSinceSuccess l = l.length := by
  induction l with
  | nil => rfl
  | cons b bs ih =>
    cases b with
    | true => exact absurd (List.mem_cons_self _ _) h
    | false =>
      have hb : true ∉ bs := fun hm => h (List.mem_cons_of_mem _ hm)
      simp [failuresSinceSuccess, hb]

/-- C5 amended: without a tracker, each fetch failure sleeps
`delay * 2 ^ min retry max_retries` before the retry and then increments
the counter, the counter is reset to zero only by a success (so the final
counter counts exactly the failures since the last success, plus the
initial counter when no success occurred), and with `delay = 1`,
`max_retries = 5` three straight failures sleep 1, 2, 4 and a failure
following a success sleeps 1 again.  With the tracker enabled the
swallowed fetch error makes every failure sleep
`delay * 2 ^ min 0 max_retries` — a single interval — and leaves the
counter at 1.  In both shapes the step is total: no fetch failure escapes
the loop. -/
theorem C5_backoff_by_mode (delay : ℚ) (mr c : Nat) (trace : List Bool) :
    feedStep false delay mr c false = (delay * 2 ^ min c mr, c + 1) ∧
    feedStep false delay mr c true = (delay, 0) ∧
    (feedRun false delay mr c trace).2 =
      (if true ∈ trace then failuresSinceSuccess trace
       else c + failuresSinceSuccess trace) ∧
    (feedRun false 1 5 0 [false, false, false]).1 = [1, 2, 4] ∧
    (feedRun false 1 5 0 [false, false, false, true, false]).1 = [1, 2, 4, 1, 1] ∧
    feedStep true delay mr c false = (delay * 2 ^ min 0 mr, 1) ∧
    feedStep true delay mr c true = (delay, 0) ∧
    (feedRun true 1 5 0 [false, false, false]).1 = [1, 1, 1] := by
  refine ⟨rfl, rfl, ?_, ?_, ?_, rfl, rfl, ?_⟩
  · induction trace generalizing c with
    | nil => simp [feedRun, failuresSinceSuccess]
    | cons b bs ih =>
      cases b with
      | true =>
        have hst : feedStep false delay mr c true = (delay, 0) := rfl
        simp only [feedRun, hst]
        rw [ih 0]
        by_cases hb : true ∈ bs
        · simp [failuresSinceSuccess, hb]
        · simp [failuresSinceSuccess, hb, failuresSinceSuccess_of_no_true bs hb]
      | false =>
        have hsf : feedStep false delay mr c false =
            (delay * 2 ^ min c mr, c + 1) := rfl
        simp only [feedRun, hsf]
        rw [ih (c + 1)]
        by_cases hb : true ∈ bs
        · simp [failuresSinceSuccess, hb]
        · simp only [failuresSinceSuccess, if_neg hb,
            failuresSinceSuccess_of_no_true bs hb]
          have hmem : true ∈ (false :: bs) ↔ true ∈ bs := by simp
          rw [if_neg (hmem.not.mpr hb)]
          omega
  · norm_num [feedRun, feedStep, failuresSinceSuccess]
  · norm_num [feedRun, feedStep, failuresSinceSuccess]
  · norm_num [feedRun, feedStep]

/-- C5 counterexample: with the performance tracker enabled — the
configuration `run_live` builds for both entry points — `measure_latency`
swallows the fetch error and `retry = 0` executes before `ticker['last']`
raises, so three consecutive fetch failures with `delay = 1`,
`max_retries = 5` sleep 1, 1, 1 rather than the claimed 1, 2, 4, and after
two failures the counter is 1, not 2: it is reset by failed fetches, not
only by successes. -/
theorem C5_counterexample :
    (feedRun true 1 5 0 [false, false, false]).1 = [1, 1, 1] ∧
    (feedRun true 1 5 0 [false, false, false]).1 ≠ [1, 2, 4] ∧
    (feedRun true 1 5 0 [false, false]).2 = 1 := by
  refine ⟨?_, ?_, ?_⟩ <;> norm_num [feedRun, feedStep]

end Feed

namespace Tracker

/-- One recorded latency sample: `{'timestamp': end_time, 'latency': latency,
'success': success}` (metrics.py, `measure_latency`). -/
structure LatencySample where
  timestamp : ℚ
  latency : ℚ
  success : Bool
deriving Repr, DecidableEq

/-- The `success` flag assigned by the try/except around the awaited fetch:
true when the operation returned, false when it raised. -/
def fetchSucceeded (α : Type) : Except Unit α → Bool
  | Except.ok _ => true
  | Except.error _ => false

/-- The `result` variable after the try/except: the returned value on
success, `None` when the operation raised. -/
def fetchResult (α : Type) : Except Unit α → Option α
  | Except.ok a => some a
  | Except.error _ => none

/-- `PerformanceTracker.measure_latency` (metrics.py, lines 52-75).  The
awaited operation's outcome is `op`; the wall-clock readings before and
after it are `start_time` and `end_time`.  The body catches every exception:
it sets `success`/`result` from the outcome, appends a `LatencySample`, and
returns `(result, latency)` normally in both cases.  The `Except` in the
first component is where a re-raise to the caller would appear; the code
always yields `Except.ok`. -/
def measure_latency (α : Type) (op : Except Unit α) (start_time end_time : ℚ)
    (latencies : List LatencySample) :
    Except Unit (Option α × ℚ) × List LatencySample :=
  (Except.ok (fetchResult α op, end_time - start_time),
   latencies ++ [⟨end_time, end_time - start_time, fetchSucceeded α op⟩])

/-- Exceptions the metrics code can raise: `float()` on a malformed field,
division by zero, and a float format spec applied to a non-number. -/
inductive PyErr where
  | valueError
  | zeroDivision
  | typeError
deriving Repr, DecidableEq

/-- Timestamps of the uptime-log lines, as parsed by
`float(line.split(',')[0])` line by line; a line is `none` when its first
comma-field is malformed, in which case `float` raises `ValueError`. -/
def parseTimestamps : List (Option ℚ) → Option (List ℚ)
  | [] => some []
  | none :: _ => none
  | some t :: rest => (parseTimestamps rest).map fun ts => t :: ts

/-- `PerformanceTracker._calculate_uptime` (metrics.py, lines 152-176).
`fileLines = none` models a missing `uptime_log.txt` (returns 0); an empty
file returns 0; a malformed line raises `ValueError`; fewer than two
timestamps return 0; otherwise `expected_entries = (last - first) / 60` and
the result is `min(100, count / expected_entries * 100)` — a zero
`expected_entries` raises `ZeroDivisionError`. -/
def calculate_uptime (fileLines : Option (List (Option ℚ))) : Except PyErr ℚ :=
  match fileLines with
  | none => Except.ok 0
  | some logs =>
    if logs = [] then Except.ok 0
    else
      match parseTimestamps logs with
      | none => Except.error PyErr.valueError
      | some ts =>
        if ts.length < 2 then Except.ok 0
        else
          let duration := ts.getLastD 0 - ts.headD 0
          let expected_entries := duration / 60
          if expected_entries = 0 then Except.error PyErr.zeroDivision
          else Except.ok (min 100 ((ts.length : ℚ) / expected_entries * 100))

/-- One recorded memory sample (`get_memory_usage`). -/
structure MemorySample where
  timestamp : ℚ
  memory : ℚ
deriving Repr, DecidableEq

/-- One data row of `trade_history.csv`: the values written by
`log_transaction` (cumulative `pnl`, post-transition `position`, `type`
rendered from `is_entry`). -/
structure TradeRow where
  timestamp : ℚ
  price : ℚ
  position : Int
  pnl : ℚ
  is_entry : Bool
deriving Repr, DecidableEq

/-- Python `min` over a nonempty list of rationals. -/
def listMin (xs : List ℚ) : ℚ := xs.foldl min (xs.headD 0)

/-- Python `max` over a nonempty list of rationals. -/
def listMax (xs : List ℚ) : ℚ := xs.foldl max (xs.headD 0)

/-- Python `int()` applied to a float: truncation toward zero. -/
def pyInt (q : ℚ) : Int := q.num.tdiv (q.den : Int)

/-- Python `range(a, b, step)` for a positive step. -/
def pyRange (a b : Int) (step : Nat) : List Int :=
  (List.range (((b - a).toNat + step - 1) / step)).map
    fun i : Nat => a + (step : Int) * (i : Int)

/-- `PerformanceTracker._calculate_peak_transactions` with its default
`window_size = 60` (metrics.py, lines 178-189): the maximum, over the
60-second buckets `[m, m + 60)` for `m` in
`range(int(start_time), int(end_time) + 1, 60)`, of the number of
transaction timestamps falling in the bucket. -/
def calculate_peak_transactions (times : List ℚ) (start_time end_time : ℚ) : Nat :=
  if times = [] then 0
  else
    (pyRange (pyInt start_time) (pyInt end_time + 1) 60).foldl
      (fun mx (m : Int) =>
        max mx (times.countP fun t => decide ((m : ℚ) ≤ t ∧ t < (m : ℚ) + 60)))
      0

/-- Calendar day (UTC) containing a unix timestamp, as used by
`pd.Grouper(freq='D')` on `pd.to_datetime(timestamp, unit='s')`. -/
def dayOf (ts : ℚ) : Int := ⌊ts / 86400⌋

/-- Sum a day-tagged series per calendar day over the whole day range from
the first to the last tagged day, one entry per day (days with no data sum
to 0) — the series produced by
`groupby(pd.Grouper(key='date', freq='D'))['pnl'].sum()`. -/
def dailySums (pairs : List (Int × ℚ)) : List ℚ :=
  if pairs = [] then []
  else
    let days := pairs.map Prod.fst
    let d0 := days.foldl min (days.headD 0)
    let d1 := days.foldl max (days.headD 0)
    (List.range ((d1 - d0).toNat + 1)).map fun i =>
      ((pairs.filter fun p => decide (p.1 = d0 + (i : Int))).map Prod.snd).sum

/-- The daily series the code computes: the `pnl` column of the trade CSV
(the cumulative realized PnL as logged) grouped by calendar day. -/
def dailyReturns (rows : List TradeRow) : List ℚ :=
  dailySums (rows.map fun r => (dayOf r.timestamp, r.pnl))

/-- Arithmetic mean of a daily series. -/
def qMean (xs : List ℚ) : ℚ := xs.sum / (xs.length : ℚ)

/-- Sample variance with `ddof = 1`, the square of pandas `Series.std`. -/
def sampleVar (xs : List ℚ) : ℚ :=
  ((xs.map fun x => (x - qMean xs) ^ 2).sum) / ((xs.length : ℚ) - 1)

/-- Decidable core of `PerformanceTracker._calculate_sharpe_ratio`
(metrics.py, lines 191-212): `none` means the function returns 0 (empty
frame, fewer than two daily buckets, or zero standard deviation), and
`some (m, v)` means it returns `m / sqrt v * sqrt 252` where `m` and `v`
are the mean and the sample variance of the daily series. -/
def calcSharpeCore (rows : List TradeRow) : Option (ℚ × ℚ) :=
  if rows = [] then none
  else
    let dr := dailyReturns rows
    if dr.length < 2 ∨ sampleVar dr = 0 then none
    else some (qMean dr, sampleVar dr)

/-- Per-trade PnL deltas recovered from the cumulative column (the engine's
realized PnL starts at 0): successive differences. -/
def pnlDeltas : ℚ → List ℚ → List ℚ
  | _, [] => []
  | prev, x :: xs => (x - prev) :: pnlDeltas x xs

/-- Stated from the claim's words, for comparison with the code: the daily
series obtained by grouping the per-trade PnL deltas (not the logged
cumulative values) by calendar day. -/
def specDeltaDailyReturns (rows : List TradeRow) : List ℚ :=
  dailySums ((rows.map fun r => dayOf r.timestamp).zip
    (pnlDeltas 0 (rows.map fun r => r.pnl)))

/-- Stated from the claim's words: the Sharpe core the claim describes,
computed over per-trade deltas instead of the logged cumulative column. -/
def specDeltaSharpeCore (rows : List TradeRow) : Option (ℚ × ℚ) :=
  if rows = [] then none
  else
    let dr := specDeltaDailyReturns rows
    if dr.length < 2 ∨ sampleVar dr = 0 then none
    else some (qMean dr, sampleVar dr)

/-- In-memory tracker state together with the on-disk logs that
`calculate_metrics` reads: the latency and memory sample lists, the
transaction timestamps, the first memory reading, the uptime log
(`none` = missing file) and the trade CSV (`none` = missing or empty
file, `some rows` = header present with the given data rows). -/
structure TrackerState where
  latencies : List LatencySample
  transaction_times : List ℚ
  memory_samples : List MemorySample
  initial_memory : ℚ
  uptime_file : Option (List (Option ℚ))
  trades_file : Option (List TradeRow)
deriving Repr, DecidableEq

/-- The metrics dict of `calculate_metrics`: a field is `none` when its key
is absent from the dict.  The `sharpe` field stores the decidable core of
the Sharpe computation (see `calcSharpeCore`); its key is present exactly
when the trade CSV exists and is nonempty. -/
structure MetricsDict where
  avg_latency_ms : Option ℚ
  max_latency_ms : Option ℚ
  min_latency_ms : Option ℚ
  success_rate : Option ℚ
  uptime_percentage : ℚ
  memory_usage_bytes : Option ℚ
  memory_change_percentage : Option ℚ
  total_transactions : Option Nat
  peak_transactions_per_minute : Option Nat
  sharpe : Option (Option (ℚ × ℚ))
deriving Repr, DecidableEq

/-- `PerformanceTracker.calculate_metrics` (metrics.py, lines 112-150).
Latency aggregates are present when at least one sample exists; the uptime
percentage is always computed (and its exceptions propagate, there is no
try/except around it); memory fields are present when a sample exists
(`initial_memory = 0` would make the change percentage divide by zero);
transaction fields are present when a transaction was recorded; the Sharpe
key is present when the trade CSV exists and is nonempty (its own errors
are caught inside `_calculate_sharpe_ratio` and yield 0). -/
def calculate_metrics (t : TrackerState) : Except PyErr MetricsDict := do
  let latVals := t.latencies.map fun l => l.latency
  let avg? := if t.latencies = [] then none else
    some (latVals.sum / (latVals.length : ℚ) * 1000)
  let max? := if t.latencies = [] then none else some (listMax latVals * 1000)
  let min? := if t.latencies = [] then none else some (listMin latVals * 1000)
  let sr? := if t.latencies = [] then none else
    some (((t.latencies.countP fun l => l.success : Nat) : ℚ)
      / (t.latencies.length : ℚ) * 100)
  let uptime ← calculate_uptime t.uptime_file
  let memPair? ←
    match t.memory_samples.getLast? with
    | none => pure (none : Option (ℚ × ℚ))
    | some m =>
      if t.initial_memory = 0 then throw PyErr.zeroDivision
      else pure (some (m.memory,
        (m.memory - t.initial_memory) / t.initial_memory * 100))
  let tot? := if t.transaction_times = [] then none
    else some t.transaction_times.length
  let peak? := if t.transaction_times = [] then none else
    some (calculate_peak_transactions t.transaction_times
      (listMin t.transaction_times) (listMax t.transaction_times))
  pure
    { avg_latency_ms := avg?, max_latency_ms := max?, min_latency_ms := min?,
      success_rate := sr?, uptime_percentage := uptime,
      memory_usage_bytes := memPair?.map Prod.fst,
      memory_change_percentage := memPair?.map Prod.snd,
      total_transactions := tot?, peak_transactions_per_minute := peak?,
      sharpe := t.trades_file.map calcSharpeCore }

/-- Header line of `trade_history.csv`. -/
def csvHeader : String := "timestamp,price,position,pnl,type"

/-- Value of the `type` column: `'ENTRY' if transaction_data.get('is_entry', False) else 'EXIT'`. -/
def typeName (b : Bool) : String := if b then "ENTRY" else "EXIT"

/-- One CSV data row written by `log_transaction` (decimal rendering of the
numbers abstracted by `toString`). -/
def csvLine (ts : ℚ) (td : Engine.TransactionData) : String :=
  toString ts ++ "," ++ toString td.price ++ "," ++ toString td.position ++ ","
    ++ toString td.pnl ++ "," ++ typeName td.is_entry

/-- `PerformanceTracker.log_transaction` (metrics.py, lines 89-110), acting
on the CSV file (a list of lines: `open(..., 'a')` creates a missing file,
and the header line is written first exactly when the file is empty) and on
the in-memory `trades` list; the stored `pnl` and `position` are taken
verbatim from the `transaction_data` dict. -/
def log_transaction (file : List String) (trades : List TradeRow) (ts : ℚ)
    (td : Engine.TransactionData) : List String × List TradeRow :=
  ((if file = [] then [csvHeader] else file) ++ [csvLine ts td],
   trades ++ [⟨ts, td.price, td.position, td.pnl, td.is_entry⟩])

/-- Format `metrics.get(key, 'N/A')` under a `.2f` float format spec: a
present field renders, while an absent field makes `str.format` apply `.2f`
to the string `'N/A'`, which raises `ValueError`.  The rendered digits are
abstracted by `toString`. -/
def fmtF2 : Option ℚ → Except PyErr String
  | some q => Except.ok (toString q)
  | none => Except.error PyErr.valueError

/-- The two report fields rendered without a format spec, where the `'N/A'`
default renders fine. -/
def fmtPlain : Option Nat → String
  | some n => toString n
  | none => "N/A"

/-- Memory line of the report:
`metrics.get('memory_usage_bytes', 'N/A')/1024/1024` — when the field is
absent this divides the string `'N/A'` by an int, raising `TypeError`. -/
def fmtMemory : Option ℚ → Except PyErr String
  | some q => Except.ok (toString (q / 1024 / 1024))
  | none => Except.error PyErr.typeError

/-- Sharpe line of the report, formatted `.2f` like the others; the value is
abstracted by the decidable core (see `calcSharpeCore`). -/
def fmtSharpe : Option (Option (ℚ × ℚ)) → Except PyErr String
  | some none => Except.ok (toString (0 : ℚ))
  | some (some mv) => Except.ok ("sharpe-core " ++ toString mv)
  | none => Except.error PyErr.valueError

/-- `PerformanceTracker.get_report` (metrics.py, lines 226-254): recomputes
the metrics and renders the fixed-layout report.  The replacement fields are
evaluated in template order, so the first absent field under a `.2f` spec
(or the memory division) raises. -/
def get_report (t : TrackerState) : Except PyErr String := do
  let m ← calculate_metrics t
  let avg ← fmtF2 m.avg_latency_ms
  let mx ← fmtF2 m.max_latency_ms
  let sr ← fmtF2 m.success_rate
  let up ← fmtF2 (some m.uptime_percentage)
  let tot := fmtPlain m.total_transactions
  let pk := fmtPlain m.peak_transactions_per_minute
  let mem ← fmtMemory m.memory_usage_bytes
  let mc ← fmtF2 m.memory_change_percentage
  let sh ← fmtSharpe m.sharpe
  pure (String.intercalate "\n"
    ["PERFORMANCE METRICS REPORT",
     "=========================",
     "LATENCY METRICS:",
     "- Average Latency: " ++ avg ++ " ms",
     "- Maximum Latency: " ++ mx ++ " ms",
     "- Success Rate: " ++ sr ++ "%",
     "UPTIME METRICS:",
     "- Uptime: " ++ up ++ "%",
     "TRANSACTION METRICS:",
     "- Total Transactions: " ++ tot,
     "- Peak Transactions/Minute: " ++ pk,
     "MEMORY METRICS:",
     "- Current Memory Usage: " ++ mem ++ " MB",
     "- Memory Change: " ++ mc ++ "%",
     "PERFORMANCE METRICS:",
     "- Sharpe Ratio: " ++ sh])

/-- C2 amended: `measure_latency` records exactly one latency sample whose
success flag mirrors the fetch outcome whether or not the fetch raised, but
it returns normally in both cases: a raising operation yields
`Except.ok (none, latency)` to the caller — the failure is swallowed, not
propagated. -/
theorem C2_sample_recorded_failure_swallowed (α : Type) (op : Except Unit α)
    (s e : ℚ) (ls : List LatencySample) :
    (measure_latency α op s e ls).2 = ls ++ [⟨e, e - s, fetchSucceeded α op⟩] ∧
    (∀ a, op = Except.ok a → fetchSucceeded α op = true) ∧
    (∀ u, op = Except.error u → fetchSucceeded α op = false) ∧
    (measure_latency α op s e ls).1 = Except.ok (fetchResult α op, e - s) := by
  refine ⟨rfl, ?_, ?_, rfl⟩
  · intro a h; rw [h]; rfl
  · intro u h; rw [h]; rfl

/-- Witness for C2's amended claim at the concrete raising operation. -/
theorem C2_sample_recorded_failure_swallowed_witness :
    (measure_latency Unit (Except.error ()) 0 1 []).2 = [⟨1, 1 - 0, false⟩] ∧
    fetchSucceeded Unit (Except.error ()) = false := by
  have h := C2_sample_recorded_failure_swallowed Unit (Except.error ()) 0 1 []
  exact ⟨by simpa using h.1, h.2.2.1 () rfl⟩

/-- C2 counterexample: when the operation raises, `measure_latency` does not
re-raise — at `op = Except.error ()` it returns `Except.ok (none, 1 - 0)` to
its caller instead of `Except.error ()`. -/
theorem C2_counterexample :
    (measure_latency Unit (Except.error ()) 0 1 []).1 = Except.ok (none, 1 - 0) ∧
    (measure_latency Unit (Except.error ()) 0 1 []).1 ≠ Except.error () := by
  refine ⟨rfl, ?_⟩
  intro h
  simp [measure_latency] at h

/-- The snapshot `calculate_metrics` produces when the uptime derivation
yields `u` and the initial memory reading is nonzero, written as a pure
record for comparison with the monadic code. -/
def snapshotOf (t : TrackerState) (u : ℚ) : MetricsDict where
  avg_latency_ms := if t.latencies = [] then none else
    some ((t.latencies.map fun l => l.latency).sum
      / ((t.latencies.map fun l => l.latency).length : ℚ) * 1000)
  max_latency_ms := if t.latencies = [] then none else
    some (listMax (t.latencies.map fun l => l.latency) * 1000)
  min_latency_ms := if t.latencies = [] then none else
    some (listMin (t.latencies.map fun l => l.latency) * 1000)
  success_rate := if t.latencies = [] then none else
    some (((t.latencies.countP fun l => l.success : Nat) : ℚ)
      / (t.latencies.length : ℚ) * 100)
  uptime_percentage := u
  memory_usage_bytes := (t.memory_samples.getLast?).map fun m => m.memory
  memory_change_percentage := (t.memory_samples.getLast?).map fun m =>
    (m.memory - t.initial_memory) / t.initial_memory * 100
  total_transactions := if t.transaction_times = [] then none
    else some t.transaction_times.length
  peak_transactions_per_minute := if t.transaction_times = [] then none else
    some (calculate_peak_transactions t.transaction_times
      (listMin t.transaction_times) (listMax t.transaction_times))
  sharpe := t.trades_file.map calcSharpeCore

/-- C3 amended: whenever the uptime derivation succeeds (and the initial
memory reading is nonzero, as for a real tracker, whose constructor records
a positive first reading), `calculate_metrics` raises nothing and returns
the full snapshot, with every field whose inputs are missing simply absent:
latency aggregates without samples, memory fields without samples,
transaction fields without transactions, Sharpe without a trade CSV.
Malformed uptime lines or a zero heartbeat span do raise (see the
counterexample), so the unconditional claim fails. -/
theorem C3_snapshot_when_uptime_ok (t : TrackerState) (u : ℚ)
    (hu : calculate_uptime t.uptime_file = Except.ok u)
    (hm : t.initial_memory ≠ 0) :
    calculate_metrics t = Except.ok (snapshotOf t u) ∧
    (t.latencies = [] →
      (snapshotOf t u).avg_latency_ms = none ∧ (snapshotOf t u).success_rate = none) ∧
    (t.memory_samples = [] → (snapshotOf t u).memory_usage_bytes = none) ∧
    (t.transaction_times = [] → (snapshotOf t u).total_transactions = none) ∧
    (t.trades_file = none → (snapshotOf t u).sharpe = none) := by
  refine ⟨?_, ?_, ?_, ?_, ?_⟩
  · rw [calculate_metrics, hu]
    cases hms : t.memory_samples.getLast? with
    | none => simp [snapshotOf, hms]
    | some m => simp [snapshotOf, hms, hm]
  · intro h; simp [snapshotOf, h]
  · intro h; simp [snapshotOf, h]
  · intro h; simp [snapshotOf, h]
  · intro h; simp [snapshotOf, h]

/-- Witness for C3's amended claim on the empty tracker with a unit initial
memory reading and a missing uptime log. -/
theorem C3_snapshot_when_uptime_ok_witness :
    calculate_metrics ⟨[], [], [], 1, none, none⟩ =
      Except.ok (snapshotOf ⟨[], [], [], 1, none, none⟩ 0) :=
  (C3_snapshot_when_uptime_ok ⟨[], [], [], 1, none, none⟩ 0 rfl one_ne_zero).1

/-- C3 counterexample: `calculate_metrics` does let exceptions escape — an
uptime log whose two heartbeats share one timestamp raises
`ZeroDivisionError`, and a malformed line raises `ValueError`, instead of
yielding a snapshot with the affected field defaulted. -/
theorem C3_counterexample :
    calculate_metrics ⟨[], [], [], 0, some [some 100, some 100], none⟩ =
      Except.error PyErr.zeroDivision ∧
    calculate_metrics ⟨[], [], [], 0, some [none], none⟩ =
      Except.error PyErr.valueError := by
  refine ⟨?_, ?_⟩
  · norm_num [calculate_metrics, calculate_uptime, parseTimestamps]
    rfl
  · norm_num [calculate_metrics, calculate_uptime, parseTimestamps]

theorem parseTimestamps_map_some (ts : List ℚ) :
    parseTimestamps (ts.map some) = some ts := by
  induction ts with
  | nil => rfl
  | cons a l ih => simp [parseTimestamps, ih]

/-- C6 amended: for a parseable heartbeat log of at least two timestamps
whose last strictly exceeds its first, the uptime equals
`min(100, count / ((last - first) / 60) * 100)` (the 60-second heartbeat
interval is hard-coded) and lies in `(0, 100]`; fewer than two heartbeats
give 0; heartbeats spaced exactly 60 seconds apart over the whole duration
give exactly 100.  A log with equal first and last timestamps raises and a
decreasing one yields a negative value (see the counterexample), so the
claim's unconditional `[0, 100]` bound fails. -/
theorem C6_uptime (ts : List ℚ) (h2 : 2 ≤ ts.length)
    (hlt : ts.headD 0 < ts.getLastD 0) :
    calculate_uptime (some (ts.map some)) =
      Except.ok (min 100 ((ts.length : ℚ) / ((ts.getLastD 0 - ts.headD 0) / 60) * 100)) ∧
    0 < min 100 ((ts.length : ℚ) / ((ts.getLastD 0 - ts.headD 0) / 60) * 100) ∧
    min 100 ((ts.length : ℚ) / ((ts.getLastD 0 - ts.headD 0) / 60) * 100) ≤ 100 ∧
    (∀ us : List ℚ, us.length < 2 →
      calculate_uptime (some (us.map some)) = Except.ok 0) ∧
    (∀ t0 : ℚ, ts = (List.range ts.length).map (fun i => t0 + 60 * (i : ℚ)) →
      calculate_uptime (some (ts.map some)) = Except.ok 100) := by
  have hne : ts.map some ≠ [] := by
    intro h
    rw [List.map_eq_nil_iff] at h
    rw [h] at h2
    simp at h2
  have hdpos : (0:ℚ) < ts.getLastD 0 - ts.headD 0 := by linarith
  have hexp0 : (0:ℚ) < (ts.getLastD 0 - ts.headD 0) / 60 := by positivity
  have hnpos : (0:ℚ) < (ts.length : ℚ) := by
    have : 0 < ts.length := by omega
    exact_mod_cast this
  have hxpos : 0 < (ts.length : ℚ) / ((ts.getLastD 0 - ts.headD 0) / 60) * 100 := by
    have := div_pos hnpos hexp0
    linarith
  have hmain : calculate_uptime (some (ts.map some)) =
      Except.ok (min 100 ((ts.length : ℚ) / ((ts.getLastD 0 - ts.headD 0) / 60) * 100)) := by
    simp only [calculate_uptime, if_neg hne, parseTimestamps_map_some]
    rw [if_neg (by omega), if_neg hexp0.ne']
  refine ⟨hmain, lt_min (by norm_num) hxpos, min_le_left _ _, ?_, ?_⟩
  · intro us hus
    rcases us with _ | ⟨a, _ | ⟨b, l⟩⟩
    · rfl
    · simp [calculate_uptime, parseTimestamps]
    · simp at hus; omega
  · intro t0 heq
    obtain ⟨m, hm⟩ : ∃ m, ts.length = m + 2 := ⟨ts.length - 2, by omega⟩
    have hhead : ts.headD 0 = t0 := by
      conv_lhs => rw [heq, hm]
      simp [List.range_succ_eq_map]
    have hlast : ts.getLastD 0 = t0 + 60 * ((m : ℚ) + 1) := by
      conv_lhs => rw [heq, hm]
      rw [show m + 2 = (m + 1) + 1 by omega, List.range_succ]
      simp only [List.map_append, List.map_cons, List.map_nil,
        List.getLastD_eq_getLast?, List.getLast?_concat]
      simp
    rw [hmain]
    have hdiff : ts.getLastD 0 - ts.headD 0 = 60 * ((m : ℚ) + 1) := by
      rw [hhead, hlast]; ring
    have hm1 : (0:ℚ) < (m : ℚ) + 1 := by positivity
    have hval : (ts.length : ℚ) / ((ts.getLastD 0 - ts.headD 0) / 60) * 100 =
        ((m : ℚ) + 2) / ((m : ℚ) + 1) * 100 := by
      rw [hdiff, hm]
      push_cast
      congr 1
      congr 1
      rw [mul_comm, mul_div_assoc]
      norm_num
    rw [hval, min_eq_left]
    rw [div_mul_eq_mul_div, le_div_iff₀ hm1]
    linarith

/-- Witness for C6 at the two-heartbeat log `[0, 60]`, spaced exactly 60
seconds: the uptime is exactly 100. -/
theorem C6_uptime_witness :
    calculate_uptime (some [some 0, some 60]) = Except.ok 100 := by
  have h := (C6_uptime [0, 60] (by norm_num) (by norm_num)).1
  norm_num [min_def] at h
  exact h

/-- C6 counterexample: on the heartbeat log with timestamps 120 then 0 the
computed uptime is −100, outside `[0, 100]` (the claim asserts the value
always lies in that range). -/
theorem C6_counterexample :
    calculate_uptime (some [some 120, some 0]) = Except.ok (-100) ∧
    ¬ (0 : ℚ) ≤ -100 := by
  refine ⟨?_, by norm_num⟩
  norm_num [calculate_uptime, parseTimestamps, min_def]
  simp

theorem sum_sq_dev_eq_zero_iff (l : List ℚ) (c : ℚ) :
    ((l.map fun x => (x - c) ^ 2).sum = 0) ↔ ∀ x ∈ l, x = c := by
  induction l with
  | nil => simp
  | cons a l ih =>
    have hnn : (0:ℚ) ≤ (l.map fun x => (x - c) ^ 2).sum := by
      apply List.sum_nonneg
      intro x hx
      simp only [List.mem_map] at hx
      obtain ⟨y, hy, rfl⟩ := hx
      positivity
    simp only [List.map_cons, List.sum_cons]
    rw [add_eq_zero_iff_of_nonneg (by positivity) hnn, ih]
    constructor
    · rintro ⟨h1, h2⟩ x hx
      rcases List.mem_cons.mp hx with rfl | hx
      · have := sq_eq_zero_iff.mp h1
        linarith [sub_eq_zero.mp this]
      · exact h2 x hx
    · intro h
      refine ⟨?_, fun x hx => h x (List.mem_cons_of_mem _ hx)⟩
      rw [h a (List.mem_cons_self _ _)]
      ring

/-- C4 amended: the Sharpe computation groups the logged cumulative `pnl`
column (not per-trade deltas) by calendar day over the whole first-to-last
day range, sums per day, and returns `mean / std * sqrt 252` of that daily
series; it returns 0 exactly when the CSV frame is empty, fewer than two
daily buckets exist, or the series has zero sample variance — the latter
exactly when every daily sum equals the mean. -/
theorem C4_sharpe (rows : List TradeRow) :
    (calcSharpeCore rows = none ↔
      rows = [] ∨ (dailyReturns rows).length < 2 ∨
        sampleVar (dailyReturns rows) = 0) ∧
    (∀ m v, calcSharpeCore rows = some (m, v) →
      m = qMean (dailyReturns rows) ∧ v = sampleVar (dailyReturns rows) ∧
        v ≠ 0 ∧ 2 ≤ (dailyReturns rows).length) ∧
    (2 ≤ (dailyReturns rows).length →
      (sampleVar (dailyReturns rows) = 0 ↔
        ∀ x ∈ dailyReturns rows, x = qMean (dailyReturns rows))) := by
  refine ⟨?_, ?_, ?_⟩
  · by_cases h1 : rows = []
    · simp [calcSharpeCore, h1]
    · by_cases h2 : (dailyReturns rows).length < 2 ∨ sampleVar (dailyReturns rows) = 0
      · simp only [calcSharpeCore, if_neg h1, if_pos h2]
        exact iff_of_true (by simp) (Or.inr h2)
      · simp only [calcSharpeCore, if_neg h1, if_neg h2]
        push_neg at h2
        refine iff_of_false (by simp) ?_
        rintro (h | h | h)
        · exact h1 h
        · omega
        · exact h2.2 h
  · intro m v h
    simp only [calcSharpeCore] at h
    by_cases h1 : rows = []
    · rw [if_pos h1] at h; exact absurd h (by simp)
    · rw [if_neg h1] at h
      by_cases h2 : (dailyReturns rows).length < 2 ∨ sampleVar (dailyReturns rows) = 0
      · rw [if_pos h2] at h; exact absurd h (by simp)
      · rw [if_neg h2] at h
        push_neg at h2
        simp only [Option.some.injEq, Prod.mk.injEq] at h
        obtain ⟨rfl, rfl⟩ := h
        exact ⟨rfl, rfl, h2.2, by omega⟩
  · intro hlen
    have h1 : ((dailyReturns rows).length : ℚ) - 1 ≠ 0 := by
      have h2 : (2:ℚ) ≤ ((dailyReturns rows).length : ℚ) := by exact_mod_cast hlen
      linarith
    unfold sampleVar
    rw [div_eq_zero_iff]
    simp only [h1, or_false]
    exact sum_sq_dev_eq_zero_iff _ _

/-- Witness for C4's amended claim: an empty CSV frame yields Sharpe 0. -/
theorem C4_sharpe_witness :
    calcSharpeCore ([] : List TradeRow) = none :=
  (C4_sharpe []).1.mpr (Or.inl rfl)

/-- C4 counterexample: the code sums the logged cumulative `pnl` column, not
per-trade deltas.  Two EXIT rows on consecutive days both logging cumulative
PnL 10 (per-trade deltas 10 and 0) make the code's daily series `[10, 10]`,
which has zero variance, so the code returns 0 — while the claim's
delta-based series is `[10, 0]` with mean 5 and sample variance 50, whose
Sharpe `5 / sqrt 50 * sqrt 252` is strictly positive. -/
theorem C4_counterexample :
    calcSharpeCore [⟨0, 100, 0, 10, false⟩, ⟨86400, 100, 0, 10, false⟩] = none ∧
    specDeltaSharpeCore [⟨0, 100, 0, 10, false⟩, ⟨86400, 100, 0, 10, false⟩] =
      some (5, 50) ∧
    (0 : ℝ) < 5 / Real.sqrt 50 * Real.sqrt 252 := by
  have hday0 : dayOf 0 = 0 := by norm_num [dayOf]
  have hday1 : dayOf 86400 = 1 := by norm_num [dayOf]
  have hdr : dailyReturns
      [⟨0, 100, 0, 10, false⟩, ⟨86400, 100, 0, 10, false⟩] = [10, 10] := by
    simp only [dailyReturns, List.map_cons, List.map_nil, hday0, hday1]
    norm_num [dailySums, List.range_succ, min_def, max_def, List.filter]
    simp
  have hdd : specDeltaDailyReturns
      [⟨0, 100, 0, 10, false⟩, ⟨86400, 100, 0, 10, false⟩] = [10, 0] := by
    simp only [specDeltaDailyReturns, List.map_cons, List.map_nil, hday0, hday1,
      pnlDeltas, List.zip_cons_cons, List.zip_nil_right]
    norm_num [dailySums, List.range_succ, min_def, max_def, List.filter]
    simp
  have hvar1 : sampleVar [10, 10] = 0 := by norm_num [sampleVar, qMean]
  have hvar2 : sampleVar [10, 0] = 50 := by norm_num [sampleVar, qMean]
  have hmean2 : qMean [10, 0] = 5 := by norm_num [qMean]
  refine ⟨?_, ?_, by positivity⟩
  · simp only [calcSharpeCore, hdr, hvar1]
    simp
  · simp only [specDeltaSharpeCore, hdd, hvar2, hmean2]
    rw [if_neg (by simp), if_neg (by norm_num)]

theorem foldl_min_le_init (xs : List ℚ) : ∀ a : ℚ, xs.foldl min a ≤ a := by
  induction xs with
  | nil => intro a; simp
  | cons x l ih => intro a; exact le_trans (ih (min a x)) (min_le_left a x)

theorem foldl_min_le_of_mem (xs : List ℚ) :
    ∀ t ∈ xs, ∀ a : ℚ, xs.foldl min a ≤ t := by
  induction xs with
  | nil => intro t ht; cases ht
  | cons x l ih =>
    intro t ht a
    rcases List.mem_cons.mp ht with rfl | h
    · exact le_trans (foldl_min_le_init l (min a t)) (min_le_right a t)
    · exact ih t h _

theorem foldl_min_eq_or_mem (xs : List ℚ) :
    ∀ a : ℚ, xs.foldl min a = a ∨ xs.foldl min a ∈ xs := by
  induction xs with
  | nil => intro a; exact Or.inl rfl
  | cons x l ih =>
    intro a
    rcases ih (min a x) with h | h
    · rcases min_choice a x with h2 | h2
      · exact Or.inl (by rw [List.foldl_cons, h, h2])
      · exact Or.inr (by rw [List.foldl_cons, h, h2]; exact List.mem_cons_self _ _)
    · exact Or.inr (List.mem_cons_of_mem _ h)

theorem init_le_foldl_max (xs : List ℚ) : ∀ a : ℚ, a ≤ xs.foldl max a := by
  induction xs with
  | nil => intro a; simp
  | cons x l ih => intro a; exact le_trans (le_max_left a x) (ih (max a x))

theorem le_foldl_max_of_mem (xs : List ℚ) :
    ∀ t ∈ xs, ∀ a : ℚ, t ≤ xs.foldl max a := by
  induction xs with
  | nil => intro t ht; cases ht
  | cons x l ih =>
    intro t ht a
    rcases List.mem_cons.mp ht with rfl | h
    · exact le_trans (le_max_right a t) (init_le_foldl_max l (max a t))
    · exact ih t h _

theorem foldl_max_eq_or_mem (xs : List ℚ) :
    ∀ a : ℚ, xs.foldl max a = a ∨ xs.foldl max a ∈ xs := by
  induction xs with
  | nil => intro a; exact Or.inl rfl
  | cons x l ih =>
    intro a
    rcases ih (max a x) with h | h
    · rcases max_choice a x with h2 | h2
      · exact Or.inl (by rw [List.foldl_cons, h, h2])
      · exact Or.inr (by rw [List.foldl_cons, h, h2]; exact List.mem_cons_self _ _)
    · exact Or.inr (List.mem_cons_of_mem _ h)

theorem listMin_le (xs : List ℚ) (t : ℚ) (ht : t ∈ xs) : listMin xs ≤ t :=
  foldl_min_le_of_mem xs t ht _

theorem le_listMax (xs : List ℚ) (t : ℚ) (ht : t ∈ xs) : t ≤ listMax xs :=
  le_foldl_max_of_mem xs t ht _

theorem listMin_mem (xs : List ℚ) (h : xs ≠ []) : listMin xs ∈ xs := by
  rcases foldl_min_eq_or_mem xs (xs.headD 0) with h2 | h2
  · rw [listMin, h2]
    rcases xs with _ | ⟨a, l⟩
    · exact absurd rfl h
    · exact List.mem_cons_self _ _
  · exact h2

theorem listMax_mem (xs : List ℚ) (h : xs ≠ []) : listMax xs ∈ xs := by
  rcases foldl_max_eq_or_mem xs (xs.headD 0) with h2 | h2
  · rw [listMax, h2]
    rcases xs with _ | ⟨a, l⟩
    · exact absurd rfl h
    · exact List.mem_cons_self _ _
  · exact h2

theorem pyInt_eq_floor (q : ℚ) (h : 0 ≤ q) : pyInt q = ⌊q⌋ := by
  rw [Rat.floor_def]
  exact Int.tdiv_eq_ediv (Rat.num_nonneg.mpr h) (by positivity)

theorem mem_pyRange_iff (a b : Int) (step : Nat) (m : Int) :
    m ∈ pyRange a b step ↔
      ∃ i : Nat, i < ((b - a).toNat + step - 1) / step ∧ m = a + (step : Int) * (i : Int) := by
  unfold pyRange
  rw [List.mem_map]
  constructor
  · rintro ⟨i, hi, rfl⟩
    exact ⟨i, List.mem_range.mp hi, rfl⟩
  · rintro ⟨i, hi, h⟩
    exact ⟨i, List.mem_range.mpr hi, h.symm⟩

theorem countP_foldl_max_init_le (f : Int → ℕ) (l : List Int) :
    ∀ a : ℕ, a ≤ l.foldl (fun mx x => max mx (f x)) a := by
  induction l with
  | nil => intro a; simp
  | cons x l ih => intro a; exact le_trans (Nat.le_max_left a (f x)) (ih _)

theorem countP_le_foldl_max_of_mem (f : Int → ℕ) (l : List Int) :
    ∀ m ∈ l, ∀ a : ℕ, f m ≤ l.foldl (fun mx x => max mx (f x)) a := by
  induction l with
  | nil => intro m hm; cases hm
  | cons x l ih =>
    intro m hm a
    rcases List.mem_cons.mp hm with rfl | h
    · exact le_trans (Nat.le_max_right a (f m)) (countP_foldl_max_init_le f l _)
    · exact ih m h _

theorem countP_foldl_max_eq_or_mem (f : Int → ℕ) (l : List Int) :
    ∀ a : ℕ, l.foldl (fun mx x => max mx (f x)) a = a ∨
      ∃ m ∈ l, l.foldl (fun mx x => max mx (f x)) a = f m := by
  induction l with
  | nil => intro a; exact Or.inl rfl
  | cons x l ih =>
    intro a
    rcases ih (max a (f x)) with h | ⟨m, hm, hfm⟩
    · rcases max_choice a (f x) with h2 | h2
      · exact Or.inl (by rw [List.foldl_cons, h, h2])
      · exact Or.inr ⟨x, List.mem_cons_self _ _, by rw [List.foldl_cons, h, h2]⟩
    · exact Or.inr ⟨m, List.mem_cons_of_mem _ hm, hfm⟩

/-- C7: with at least one transaction (at nonnegative unix timestamps, as
`time.time()` produces), the computed peak is exactly the maximum bucket
count over the fixed, non-overlapping 60-second buckets
`[int(first) + 60k, int(first) + 60(k+1))` iterated from the first to the
last transaction timestamp: every iterated bucket's count is bounded by the
peak, some iterated bucket attains it, and every transaction falls in one of
the iterated buckets; concretely, three transactions inside one bucket with
a fourth in the adjacent bucket give a peak of 3. -/
theorem C7_peak_buckets (times : List ℚ) (hne : times ≠ [])
    (h0 : ∀ t ∈ times, 0 ≤ t) :
    (∀ m ∈ pyRange (pyInt (listMin times)) (pyInt (listMax times) + 1) 60,
        (times.countP fun t => decide ((m : ℚ) ≤ t ∧ t < (m : ℚ) + 60)) ≤
          calculate_peak_transactions times (listMin times) (listMax times)) ∧
    (∃ m ∈ pyRange (pyInt (listMin times)) (pyInt (listMax times) + 1) 60,
        (times.countP fun t => decide ((m : ℚ) ≤ t ∧ t < (m : ℚ) + 60)) =
          calculate_peak_transactions times (listMin times) (listMax times)) ∧
    (∀ t ∈ times,
      ∃ m ∈ pyRange (pyInt (listMin times)) (pyInt (listMax times) + 1) 60,
        (m : ℚ) ≤ t ∧ t < (m : ℚ) + 60) ∧
    calculate_peak_transactions [10, 20, 30, 70] 10 70 = 3 := by
  have hminmem := listMin_mem times hne
  have hmin0 : 0 ≤ listMin times := h0 _ hminmem
  have hminmax : listMin times ≤ listMax times := le_listMax times _ hminmem
  have hmax0 : 0 ≤ listMax times := le_trans hmin0 hminmax
  have hSf : pyInt (listMin times) = ⌊listMin times⌋ := pyInt_eq_floor _ hmin0
  have hEf : pyInt (listMax times) = ⌊listMax times⌋ := pyInt_eq_floor _ hmax0
  have hSE : pyInt (listMin times) ≤ pyInt (listMax times) := by
    rw [hSf, hEf]; exact Int.floor_le_floor hminmax
  have hpeak : calculate_peak_transactions times (listMin times) (listMax times) =
      (pyRange (pyInt (listMin times)) (pyInt (listMax times) + 1) 60).foldl
        (fun mx (m : Int) =>
          max mx (times.countP fun t => decide ((m : ℚ) ≤ t ∧ t < (m : ℚ) + 60))) 0 := by
    rw [calculate_peak_transactions, if_neg hne]
  refine ⟨?_, ?_, ?_, ?_⟩
  · intro m hm
    rw [hpeak]
    exact countP_le_foldl_max_of_mem
      (fun m => times.countP fun t => decide ((m : ℚ) ≤ t ∧ t < (m : ℚ) + 60))
      _ m hm 0
  · rw [hpeak]
    rcases countP_foldl_max_eq_or_mem
        (fun m => times.countP fun t => decide ((m : ℚ) ≤ t ∧ t < (m : ℚ) + 60))
        (pyRange (pyInt (listMin times)) (pyInt (listMax times) + 1) 60) 0 with
      hz | ⟨m, hm, hfm⟩
    · have hmem : pyInt (listMin times) ∈
          pyRange (pyInt (listMin times)) (pyInt (listMax times) + 1) 60 :=
        (mem_pyRange_iff _ _ _ _).mpr ⟨0, by omega, by simp⟩
      refine ⟨pyInt (listMin times), hmem, ?_⟩
      have hb := countP_le_foldl_max_of_mem
        (fun m => times.countP fun t => decide ((m : ℚ) ≤ t ∧ t < (m : ℚ) + 60))
        (pyRange (pyInt (listMin times)) (pyInt (listMax times) + 1) 60)
        (pyInt (listMin times)) hmem 0
      omega
    · exact ⟨m, hm, hfm.symm⟩
  · intro t ht
    have htmin : listMin times ≤ t := listMin_le times t ht
    have htmax : t ≤ listMax times := le_listMax times t ht
    have hTf1 : ((⌊t⌋ : ℤ) : ℚ) ≤ t := Int.floor_le t
    have hTf2 : t < ⌊t⌋ + 1 := Int.lt_floor_add_one t
    have hST : pyInt (listMin times) ≤ ⌊t⌋ := by
      rw [hSf]; exact Int.floor_le_floor htmin
    have hTE : ⌊t⌋ ≤ pyInt (listMax times) := by
      rw [hEf]; exact Int.floor_le_floor htmax
    refine ⟨pyInt (listMin times) +
        60 * (((⌊t⌋ - pyInt (listMin times)).toNat / 60 : ℕ) : ℤ), ?_, ?_, ?_⟩
    · exact (mem_pyRange_iff _ _ _ _).mpr
        ⟨(⌊t⌋ - pyInt (listMin times)).toNat / 60, by omega, by push_cast; ring⟩
    · have h1 : pyInt (listMin times) +
          60 * (((⌊t⌋ - pyInt (listMin times)).toNat / 60 : ℕ) : ℤ) ≤ ⌊t⌋ := by
        omega
      have h1q : ((pyInt (listMin times) +
          60 * (((⌊t⌋ - pyInt (listMin times)).toNat / 60 : ℕ) : ℤ) : ℤ) : ℚ) ≤
          ((⌊t⌋ : ℤ) : ℚ) := by exact_mod_cast h1
      push_cast at h1q
      push_cast
      linarith
    · have h2 : ⌊t⌋ + 1 ≤ pyInt (listMin times) +
          60 * (((⌊t⌋ - pyInt (listMin times)).toNat / 60 : ℕ) : ℤ) + 60 := by
        omega
      have h2q : ((⌊t⌋ + 1 : ℤ) : ℚ) ≤ ((pyInt (listMin times) +
          60 * (((⌊t⌋ - pyInt (listMin times)).toNat / 60 : ℕ) : ℤ) + 60 : ℤ) : ℚ) := by
        exact_mod_cast h2
      push_cast at h2q
      push_cast
      linarith
  · have hp10 : pyInt 10 = 10 := by
      rw [show (10:ℚ) = ((10:ℤ):ℚ) by norm_num, pyInt_eq_floor _ (by norm_num)]
      exact Int.floor_intCast 10
    have hp70 : pyInt 70 = 70 := by
      rw [show (70:ℚ) = ((70:ℤ):ℚ) by norm_num, pyInt_eq_floor _ (by norm_num)]
      exact Int.floor_intCast 70
    have hr : pyRange 10 (70 + 1) 60 = [10, 70] := by decide
    rw [calculate_peak_transactions, if_neg (by simp), hp10, hp70, hr]
    norm_num [List.countP_cons, List.countP_nil]

/-- Witness for C7 at the concrete transaction times 10, 20, 30, 70: three
transactions share the bucket `[10, 70)` and the fourth sits in `[70, 130)`,
so the peak is 3. -/
theorem C7_peak_buckets_witness :
    calculate_peak_transactions [10, 20, 30, 70] 10 70 = 3 :=
  (C7_peak_buckets [10, 20, 30, 70] (by simp) (by norm_num)).2.2.2

/-- C9: the claim describes the intended behaviour, and the code is a slip —
`get_report` supplies `'N/A'` as the default for every absent metric (clear
graceful-degradation intent) but then formats it with `.2f`.  On a freshly
constructed tracker (one heartbeat logged, the initial memory sample
recorded, no latency samples, no transactions, no trade CSV)
`calculate_metrics` omits `avg_latency_ms`, and `get_report` raises
`ValueError` instead of returning a report string. -/
theorem C9_report_raises_on_fresh_tracker :
    get_report ⟨[], [], [⟨0, 1000⟩], 1000, some [some 0], none⟩ =
      Except.error PyErr.valueError := by
  have hm : calculate_metrics ⟨[], [], [⟨0, 1000⟩], 1000, some [some 0], none⟩ =
      Except.ok ⟨none, none, none, none, 0, some 1000, some 0, none, none, none⟩ := by
    norm_num [calculate_metrics, calculate_uptime, parseTimestamps]
  simp only [get_report, hm]
  rfl

theorem foldl_log_head (pairs : List (ℚ × Engine.TransactionData)) :
    ∀ acc : List String × List TradeRow, acc.1.head? = some csvHeader →
      ((pairs.foldl (fun acc p => log_transaction acc.1 acc.2 p.1 p.2) acc).1.head? =
        some csvHeader) := by
  induction pairs with
  | nil => intro acc h; exact h
  | cons p ps ih =>
    intro acc h
    simp only [List.foldl_cons]
    apply ih
    rcases hacc : acc.1 with _ | ⟨x, xs⟩
    · simp [hacc] at h
    · simp only [log_transaction, hacc]
      rw [if_neg (by simp)]
      rw [hacc] at h
      simpa using h

/-- C10: every transaction record the engine emits stores the cumulative
realized PnL at that moment (the unchanged running total for an ENTRY, the
post-close total for an EXIT — never the per-trade delta) together with the
post-transition position; `log_transaction` appends exactly those values to
the in-memory trades list (and the CSV row is rendered from the same
record); and a trade-history file built by `log_transaction` starting from
an empty file always begins with the header line
`timestamp,price,position,pnl,type`. -/
theorem C10_transaction_log (s : Engine.StrategyState) (price : ℚ)
    (td : Engine.TransactionData)
    (h : (Engine.on_price s price).2.2 = some td) :
    td.pnl = (Engine.on_price s price).1.pnl ∧
    (td.is_entry = true → td.pnl = s.pnl) ∧
    td.position = (Engine.on_price s price).1.position ∧
    (∀ (file : List String) (trades : List TradeRow) (ts : ℚ),
      (log_transaction file trades ts td).2 =
        trades ++ [⟨ts, td.price, td.position, td.pnl, td.is_entry⟩]) ∧
    (∀ pairs : List (ℚ × Engine.TransactionData), pairs ≠ [] →
      ((pairs.foldl (fun acc p => log_transaction acc.1 acc.2 p.1 p.2)
        ([], [])).1.head? = some csvHeader)) := by
  have key : td.pnl = (Engine.on_price s price).1.pnl ∧
      (td.is_entry = true → td.pnl = s.pnl) ∧
      td.position = (Engine.on_price s price).1.position := by
    simp only [Engine.on_price] at h ⊢
    split_ifs at h ⊢ <;> simp at h ⊢ <;> subst h <;> simp
  refine ⟨key.1, key.2.1, key.2.2, fun file trades ts => rfl, ?_⟩
  intro pairs hpne
  rcases pairs with _ | ⟨p, ps⟩
  · exact absurd rfl hpne
  · simp only [List.foldl_cons]
    apply foldl_log_head
    simp [log_transaction]

/-- Witness for C10: opening a short at price 2 from flat emits a record
with the post-transition position −1 and the unchanged cumulative PnL 0. -/
theorem C10_transaction_log_witness :
    (Engine.TransactionData.position ⟨2, true, -1, 0⟩) =
      (Engine.on_price ⟨2, 3, [5, 5], 0, 0, 0⟩ 2).1.position ∧
    (Engine.TransactionData.pnl ⟨2, true, -1, 0⟩) = (0 : ℚ) := by
  have h : (Engine.on_price ⟨2, 3, [5, 5], 0, 0, 0⟩ 2).2.2 =
      some ⟨2, true, -1, 0⟩ := by
    norm_num [Engine.on_price, Engine.dequeAppend, Engine.mean, Engine.sliceLast]
  have hc := C10_transaction_log ⟨2, 3, [5, 5], 0, 0, 0⟩ 2 ⟨2, true, -1, 0⟩ h
  exact ⟨hc.2.2.1, hc.2.1 rfl⟩

end Tracker

end Crossover
